import Mathlib

/-!
Verification of the incremental-fetch/merge/persist engine of
`slack_backup.py` (the functions `_get_stored_messages`,
`_get_max_timestamp`, `get_history`, `_write_json`,
`_append_new_messages`), via a shallow embedding.

Modelling conventions:
  * JSON documents are the inductive `Json`; timestamps are modelled as
    rationals (`ℚ`), which is faithful for the order-theoretic facts
    proved here (only comparison and maximum are performed on them,
    never inexact arithmetic).
  * Python exceptions are `Except PyErr`; the source's
    `except ValueError` corresponds to matching on `PyErr.valueError`.
  * The `while True` pagination loop is embedded with an explicit fuel
    parameter; exhausted fuel yields `Option.none` (the source loop has
    no bound, so every terminating run is reproduced at some fuel).
  * The history provider is a function of the call sequence number, the
    channel id, the `oldest` bound and the page size; the sequence
    number models the statefulness a real paginated API may have.
  * The filesystem is a map from paths to file contents; the
    temp-file-then-rename write is embedded with an explicit
    fault-injection parameter marking the simulated failure point.
-/

/-- Python exceptions distinguished by the source:
`KeyError` (missing dict key), `ValueError` (failed `float` parse or
`max` of an empty list, the one the source catches), `TypeError`
(operation on a value of the wrong shape), `OSError` (a filesystem
operation failing). -/
inductive PyErr where
  | keyError
  | valueError
  | typeError
  | osError
deriving DecidableEq

/-- JSON values: the documents stored in snapshot files and the message
records returned by the provider. An object is an association list of
fields (Python dicts have unique keys; lookup takes the first match). -/
inductive Json where
  | null
  | bool (b : Bool)
  | num (q : ℚ)
  | str (s : String)
  | arr (items : List Json)
  | obj (fields : List (String × Json))

/-- First-match lookup in an object's field list (Python dict `d[k]`). -/
def lookupField : List (String × Json) → String → Option Json
  | [], _ => none
  | (k, v) :: fs, key => if k = key then some v else lookupField fs key

/-- Python subscript `value[key]`: `KeyError` when the key is absent
from a dict, `TypeError` when the value is not a dict. -/
def pyGet : Json → String → Except PyErr Json
  | .obj fields, key =>
    match lookupField fields key with
    | some v => .ok v
    | none => .error .keyError
  | _, _ => .error .typeError

/-- Split the leading run of decimal digits off a character list. -/
def takeDigits : List Char → List Char × List Char
  | [] => ([], [])
  | c :: cs =>
    if c.isDigit then
      let (ds, rest) := takeDigits cs
      (c :: ds, rest)
    else ([], c :: cs)

/-- Value of a run of decimal digits. -/
def digitsVal (cs : List Char) : Nat :=
  cs.foldl (fun n c => 10 * n + (c.toNat - 48)) 0

/-- A nonempty all-digit run, as a natural number. -/
def natOfDigits (cs : List Char) : Option Nat :=
  if cs ≠ [] ∧ cs.all Char.isDigit then some (digitsVal cs) else none

/-- An optionally signed nonempty digit run (an exponent). -/
def parseSignedInt : List Char → Option Int
  | '+' :: cs => (natOfDigits cs).map Int.ofNat
  | '-' :: cs => (natOfDigits cs).map (fun n => -(n : Int))
  | cs => (natOfDigits cs).map Int.ofNat

/-- The rational denoted by integer digits and fraction digits. -/
def decToRat (intPart fracPart : List Char) : ℚ :=
  (digitsVal intPart : ℚ) + (digitsVal fracPart : ℚ) / (10 ^ fracPart.length)

/-- Apply an optional trailing exponent part to a parsed mantissa;
anything left over that is not a well-formed exponent fails. -/
def withExp (m : ℚ) : List Char → Option ℚ
  | [] => some m
  | c :: cs =>
    if c = 'e' ∨ c = 'E' then
      match parseSignedInt cs with
      | some e => some (m * (10 : ℚ) ^ e)
      | none => none
    else none

/-- Unsigned decimal literal: `digits [. digits] [exp]` or
`. digits [exp]`, with at least one digit overall. -/
def parseUnsignedFloat (cs : List Char) : Option ℚ :=
  let (ip, r1) := takeDigits cs
  match r1 with
  | '.' :: r2 =>
    let (fp, r3) := takeDigits r2
    if ip.isEmpty && fp.isEmpty then none else withExp (decToRat ip fp) r3
  | r1 =>
    if ip.isEmpty then none else withExp (decToRat ip []) r1

/-- Model of Python `float(s)` on decimal literals: optional sign, then
an unsigned decimal literal with optional exponent. (Surrounding
whitespace, underscores and the `inf`/`nan` spellings accepted by
CPython are outside the behaviour the source relies on and are
modelled as unparseable.) `none` models a raised `ValueError`. -/
def parseFloat (s : String) : Option ℚ :=
  match s.toList with
  | '+' :: cs => parseUnsignedFloat cs
  | '-' :: cs => (parseUnsignedFloat cs).map Neg.neg
  | cs => parseUnsignedFloat cs

/-- Python `float(value)` on a JSON value: numbers pass through,
strings are parsed (`ValueError` on failure), booleans coerce, and
other shapes raise `TypeError`. -/
def pyFloat : Json → Except PyErr ℚ
  | .num q => .ok q
  | .str s =>
    match parseFloat s with
    | some q => .ok q
    | none => .error .valueError
  | .bool b => .ok (if b then 1 else 0)
  | _ => .error .typeError

/-- Python `float` of the ts field of a record, used both by
the sort key `SORT_MESSAGES_BY_TIMESTAMP` and by the fetch filter. -/
def tsOf (message : Json) : Except PyErr ℚ :=
  pyGet message "ts" >>= pyFloat

/-- The list comprehension building `float` of the ts field of each
record in order, stopping at the first raising record. -/
def tsListOf : List Json → Except PyErr (List ℚ)
  | [] => .ok []
  | m :: ms =>
    match tsOf m with
    | .error e => .error e
    | .ok q => (tsListOf ms).map (fun qs => q :: qs)

/-- Python `max(list)`: `ValueError` on an empty list, otherwise the
left fold of binary `max` over the elements. -/
def pyMax : List ℚ → Except PyErr ℚ
  | [] => .error .valueError
  | x :: xs => .ok (xs.foldl max x)

/-- Function `_get_max_timestamp(messages)` (source lines 43-49): the maximum
parsed timestamp, with `except ValueError: return 0.` — the handler
catches both the `ValueError` of `max([])` and a `ValueError` raised by
`float` on an unparseable timestamp; a `KeyError` or `TypeError`
propagates. -/
def _get_max_timestamp (messages : List Json) : Except PyErr ℚ :=
  match tsListOf messages >>= pyMax with
  | .error .valueError => .ok 0
  | .error e => .error e
  | .ok q => .ok q

/-- Python `int(x)` on a float: truncation toward zero. -/
def pyInt (q : ℚ) : Int :=
  if q < 0 then ⌈q⌉ else ⌊q⌋

/-- One provider response: a page of records and the has-more flag
(the messages and has-more fields of the response). -/
structure Response where
  messages : List Json
  has_more : Bool

/-- The history-provider capability (`pageable_object.history`). The
first argument is the call sequence number (a real paginated API is
stateful across calls); then the channel id, the `oldest` bound and the
requested page size. Transport failures are out of the modelled scope
(the source forwards them unchanged). -/
abbrev Provider := Nat → String → Int → Nat → Response

/-- The filter comprehension of source lines 68-73: keep the messages
whose parsed timestamp strictly exceeds `bound`, raising on the first
record whose timestamp does not parse. -/
def keepNew (bound : ℚ) : List Json → Except PyErr (List Json)
  | [] => .ok []
  | m :: ms =>
    match tsOf m with
    | .error e => .error e
    | .ok q =>
      if bound < q then (keepNew bound ms).map (fun l => m :: l)
      else keepNew bound ms

/-- Boolean form of the keep condition of `keepNew`. -/
def tsGtB (bound : ℚ) (m : Json) : Bool :=
  match tsOf m with
  | .ok q => decide (bound < q)
  | .error _ => false

/-- Comparison of key/record pairs by key, the order used by
`messages.sort(key=SORT_MESSAGES_BY_TIMESTAMP)`. -/
def tsLe (a b : ℚ × Json) : Bool :=
  decide (a.1 ≤ b.1)

/-- Decorate each record with its sort key, raising where the key
function raises (Python computes each key once before sorting). -/
def keyed : List Json → Except PyErr (List (ℚ × Json))
  | [] => .ok []
  | m :: ms =>
    match tsOf m with
    | .error e => .error e
    | .ok q => (keyed ms).map (fun l => (q, m) :: l)

/-- Python list sort with key `SORT_MESSAGES_BY_TIMESTAMP`: stable sort by the
parsed timestamp. -/
def sortByTs (msgs : List Json) : Except PyErr (List Json) :=
  (keyed msgs).map (fun ks => (ks.mergeSort tsLe).map Prod.snd)

/-- The `while True` loop of `get_history` (source lines 61-77), with
explicit fuel. State: remaining fuel, the current value of the mutated
variable `start_at_timestamp` (the cursor), the accumulator `messages`,
and the call sequence number. Returns the trace of `oldest` arguments
passed to the provider (one per call made) together with the outcome;
`Option.none` is fuel exhaustion. On the last page the accumulated
messages are sorted by timestamp and returned (source lines 80-81). -/
def getHistoryGo (provider : Provider) (channel_id : String) (page_size : Nat) :
    Nat → ℚ → List Json → Nat → List Int × Except PyErr (Option (List Json))
  | 0, _, _, _ => ([], .ok none)
  | fuel + 1, cursor, acc, k =>
    let oldest := pyInt cursor
    let resp := provider k channel_id oldest page_size
    match keepNew cursor resp.messages with
    | .error e => ([oldest], .error e)
    | .ok kept =>
      if resp.has_more then
        match _get_max_timestamp resp.messages with
        | .error e => ([oldest], .error e)
        | .ok m =>
          let rest := getHistoryGo provider channel_id page_size fuel m (acc ++ kept) (k + 1)
          (oldest :: rest.1, rest.2)
      else
        ([oldest], (sortByTs (acc ++ kept)).map some)

/-- Function `get_history(pageable_object, channel_id, start_at_timestamp=0,
page_size=1000)` (source lines 52-81): paginated fetch starting at the
given exclusive bound. The extra `fuel` argument bounds the number of
provider calls so the embedding is total; the number of calls actually
made is the length of the returned trace. -/
def get_history (provider : Provider) (channel_id : String) (fuel : Nat)
    (start_at_timestamp : ℚ) (page_size : Nat) :
    List Int × Except PyErr (Option (List Json)) :=
  getHistoryGo provider channel_id page_size fuel start_at_timestamp [] 0

/-- Content of one file: either a complete serialized JSON document, or
the partially written state of a file whose `json.dump` was interrupted
(such a file does not parse back). -/
inductive FileData where
  | incomplete
  | complete (content : Json)

/-- The filesystem: a map from paths to file contents (`none` = the
path does not exist). Directories are not modelled: `os.makedirs` in
`_write_json` only ever creates directories, never touches any file,
so it is invisible at this granularity. -/
def FS := String → Option FileData

/-- Update one path. -/
def FS.set (fs : FS) (p : String) (d : Option FileData) : FS :=
  fun q => if q = p then d else fs q

/-- Fault-injection point for `_write_json`: no fault, a failure while
`json.dump` is serializing into the temporary file, or a failure after
the dump completes but before `os.rename` (a failing rename leaves the
same state as `beforeRename`: temporary file complete, target
untouched). -/
inductive Fault where
  | noFault
  | duringDump
  | beforeRename

/-- Whether `_write_json` returned normally or raised. -/
inductive WriteOutcome where
  | ok
  | failed

/-- Function `_write_json(path, info)` (source lines 84-92) with fault
injection. `tmp` is the fresh name chosen by `NamedTemporaryFile`
(created in the target's directory). Because the file is opened with
`delete=False`, leaving the `with` block by an exception closes the
temporary file but does not remove it; `os.rename` runs inside the
block on success, atomically replacing the target. -/
def _write_json (fault : Fault) (tmp : String) (path : String) (info : Json) (fs : FS) :
    WriteOutcome × FS :=
  let fs1 := fs.set tmp (some .incomplete)
  match fault with
  | .duringDump => (.failed, fs1)
  | f =>
    let fs2 := fs1.set tmp (some (.complete info))
    match f with
    | .beforeRename => (.failed, fs2)
    | _ => (.ok, (fs2.set tmp none).set path (some (.complete info)))

/-- Coerce a JSON value to the list it must be to be iterated and
concatenated; the source stores the messages field and later
treats it as a list, so a non-array value surfaces as `TypeError`. -/
def asList : Json → Except PyErr (List Json)
  | .arr items => .ok items
  | _ => .error .typeError

/-- Function `_get_stored_messages(path)` (source lines 35-40): the empty
list when the path does not exist; otherwise the messages field of the
parsed file. A half-written file makes `json.load` raise
`JSONDecodeError`, a `ValueError`. -/
def _get_stored_messages (fs : FS) (path : String) : Except PyErr (List Json) :=
  match fs path with
  | none => .ok []
  | some .incomplete => .error .valueError
  | some (.complete doc) => pyGet doc "messages" >>= asList

/-- Set one field of an object's association list, replacing an
existing binding or appending a new one (Python dict assignment). -/
def setAssoc : List (String × Json) → String → Json → List (String × Json)
  | [], key, v => [(key, v)]
  | (k, w) :: fs, key, v =>
    if k = key then (k, v) :: fs else (k, w) :: setAssoc fs key v

/-- Python `info[key] = value`: field assignment on a dict, `TypeError`
on any other shape. -/
def setField : Json → String → Json → Except PyErr Json
  | .obj fields, key, v => .ok (.obj (setAssoc fields key v))
  | _, _, _ => .error .typeError

/-- Modelled from the spec: the spec's §4.4 result of
`sync_conversation`, `unchanged | updated(count)`. The source function
`_append_new_messages` returns `None` on every path; the spec names
its no-write early return `unchanged` and its write path
`updated(count)` with `count` the number of newly merged records, so
the embedding reports which control-flow path was taken. -/
inductive SyncResult where
  | unchanged
  | updated (count : Nat)

/-- Function `_append_new_messages(slack_api_handle, item_id, output_path,
info)` (source lines 95-107): load stored messages, fetch history past
their maximum timestamp, return early when nothing new arrived,
otherwise merge, re-sort, store the merged list under the messages key
and write atomically. `fuel` bounds the inner pagination (`Option.none`
= fuel exhausted), `fault` is threaded to `_write_json`, and an
injected write failure raises `OSError`. Returns the resulting
filesystem and the spec-level `SyncResult` of the path taken. -/
def _append_new_messages (provider : Provider) (fuel : Nat) (fault : Fault)
    (item_id : String) (tmp : String) (output_path : String) (info : Json) (fs : FS) :
    Except PyErr (Option (FS × SyncResult)) :=
  match _get_stored_messages fs output_path with
  | .error e => .error e
  | .ok messages =>
    match _get_max_timestamp messages with
    | .error e => .error e
    | .ok w =>
      match (get_history provider item_id fuel w 1000).2 with
      | .error e => .error e
      | .ok none => .ok none
      | .ok (some new_messages) =>
        if new_messages.isEmpty then .ok (some (fs, .unchanged))
        else
          match sortByTs (messages ++ new_messages) with
          | .error e => .error e
          | .ok merged =>
            match setField info "messages" (.arr merged) with
            | .error e => .error e
            | .ok info1 =>
              match _write_json fault tmp output_path info1 fs with
              | (.ok, fs1) => .ok (some (fs1, .updated new_messages.length))
              | (.failed, _) => .error .osError

/-- The filesystem with no files. -/
def emptyFS : FS := fun _ => none

/-- The record list is sorted ascending by its parsed timestamps. -/
def SortedByTs (l : List Json) : Prop :=
  l.Chain' (fun a b => ∀ qa qb, tsOf a = .ok qa → tsOf b = .ok qb → qa ≤ qb)

/-- Records with the consecutive integer timestamps
`a, a+1, …, a+n-1`. -/
def tsRange (a : ℚ) : Nat → List Json
  | 0 => []
  | n + 1 => Json.obj [("ts", Json.num a)] :: tsRange (a + 1) n

/-- The timestamps of `tsRange a n`. -/
def ratRange (a : ℚ) : Nat → List ℚ
  | 0 => []
  | n + 1 => a :: ratRange (a + 1) n

/-- A provider serving three fixed pages with
`has_more = true, true, false`, regardless of the bounds it is
passed. -/
def provider3 (p0 p1 p2 : List Json) : Provider := fun k _ _ _ =>
  if k = 0 then Response.mk p0 true
  else if k = 1 then Response.mk p1 true
  else Response.mk p2 false

/-- The provider of the pagination-termination scenario: three pages of
1000, 1000 and 400 records (consecutive integer timestamps 1…1000,
1001…2000 and 2001…2400) with `has_more = true, true, false`. -/
def providerC9 : Provider :=
  provider3 (tsRange 1 1000) (tsRange 1001 1000) (tsRange 2001 400)

/-- The provider of the C1 scenario: first page `[ts 5]` with
`has_more`, second page `[ts 3]` without. -/
def providerC1 : Provider := fun k _ _ _ =>
  if k = 0 then Response.mk [Json.obj [("ts", Json.num 5)]] true
  else Response.mk [Json.obj [("ts", Json.num 3)]] false

theorem le_foldl_max_init (l : List ℚ) : ∀ x : ℚ, x ≤ l.foldl max x := by
  induction l with
  | nil => intro x; exact le_refl x
  | cons y ys ih =>
    intro x
    exact le_trans (le_max_left x y) (ih (max x y))

theorem foldl_max_mem (l : List ℚ) : ∀ x : ℚ, l.foldl max x = x ∨ l.foldl max x ∈ l := by
  induction l with
  | nil => intro x; exact Or.inl rfl
  | cons y ys ih =>
    intro x
    have h : (y :: ys).foldl max x = ys.foldl max (max x y) := rfl
    rcases ih (max x y) with h1 | h1
    · rcases max_choice x y with h2 | h2
      · exact Or.inl (by rw [h, h1, h2])
      · exact Or.inr (by rw [h, h1, h2]; exact List.mem_cons_self y ys)
    · exact Or.inr (List.mem_cons_of_mem y (h ▸ h1))

theorem foldl_max_ge (l : List ℚ) : ∀ x y : ℚ, y ∈ l → y ≤ l.foldl max x := by
  induction l with
  | nil => intro x y hy; exact absurd hy (List.not_mem_nil y)
  | cons z zs ih =>
    intro x y hy
    rcases List.mem_cons.mp hy with rfl | h1
    · show y ≤ zs.foldl max (max x y)
      exact le_trans (le_max_right x y) (le_foldl_max_init zs (max x y))
    · exact ih (max x z) y h1

/-- Lemma: `pyMax` really computes a maximum: on success the result is an
element of the list and bounds every element. -/
theorem pyMax_spec {l : List ℚ} {m : ℚ} (h : pyMax l = .ok m) :
    m ∈ l ∧ ∀ x ∈ l, x ≤ m := by
  match l with
  | [] => exact absurd h (by simp [pyMax])
  | x :: xs =>
    have hm : m = xs.foldl max x := by
      have := h
      simp [pyMax] at this
      exact this.symm
    constructor
    · rcases foldl_max_mem xs x with h1 | h1
      · rw [hm, h1]; exact List.mem_cons_self x xs
      · exact hm ▸ List.mem_cons_of_mem x h1
    · intro y hy
      rcases List.mem_cons.mp hy with h1 | h1
      · exact hm ▸ h1 ▸ le_foldl_max_init xs x
      · exact hm ▸ foldl_max_ge xs x y h1

/-- Inversion for `tsListOf` on a cons cell. -/
theorem tsListOf_cons_ok {m : Json} {ms : List Json} {floats : List ℚ}
    (h : tsListOf (m :: ms) = .ok floats) :
    ∃ q qs, tsOf m = .ok q ∧ tsListOf ms = .ok qs ∧ floats = q :: qs := by
  unfold tsListOf at h
  cases htm : tsOf m with
  | error e => rw [htm] at h; exact absurd h (by simp)
  | ok q =>
    rw [htm] at h
    cases hts : tsListOf ms with
    | error e => rw [hts] at h; exact absurd h (by simp [Except.map])
    | ok qs =>
      rw [hts] at h
      simp only [Except.map, Except.ok.injEq] at h
      exact ⟨q, qs, rfl, rfl, h.symm⟩

/-- Evaluation of `_get_max_timestamp` on a list whose timestamps all
parse. -/
theorem get_max_timestamp_of_tsList {msgs : List Json} {q : ℚ} {qs : List ℚ}
    (h : tsListOf msgs = .ok (q :: qs)) :
    _get_max_timestamp msgs = .ok (qs.foldl max q) := by
  unfold _get_max_timestamp
  rw [show tsListOf msgs >>= pyMax = pyMax (q :: qs) by rw [h]; rfl]
  rfl

/-- C7: for every nonempty record sequence whose timestamps all parse,
`_get_max_timestamp` succeeds with the maximum of the parsed
timestamps (an attained upper bound), and on the empty sequence it
returns the defined floor `0.0` rather than an error. -/
theorem claim_C7_max_timestamp (msgs : List Json) (floats : List ℚ)
    (h : tsListOf msgs = .ok floats) :
    (msgs = [] → _get_max_timestamp msgs = .ok 0) ∧
    (msgs ≠ [] → ∃ m, _get_max_timestamp msgs = .ok m ∧ m ∈ floats ∧ ∀ x ∈ floats, x ≤ m) := by
  constructor
  · rintro rfl
    rfl
  · intro hne
    match msgs, hne with
    | m :: ms, _ =>
      obtain ⟨q, qs, _, _, rfl⟩ := tsListOf_cons_ok h
      refine ⟨qs.foldl max q, get_max_timestamp_of_tsList h, ?_⟩
      have hspec := @pyMax_spec (q :: qs) (qs.foldl max q) rfl
      exact hspec

/-- Witness for C7 at the concrete sequence of two records with
timestamps `3` and `1`. -/
theorem claim_C7_witness :
    tsListOf [Json.obj [("ts", Json.num 3)], Json.obj [("ts", Json.num 1)]] =
      .ok [3, 1] ∧
    (([Json.obj [("ts", Json.num 3)], Json.obj [("ts", Json.num 1)]] :
        List Json) ≠ [] →
      ∃ m, _get_max_timestamp
          [Json.obj [("ts", Json.num 3)], Json.obj [("ts", Json.num 1)]] = .ok m ∧
        m ∈ [(3 : ℚ), 1] ∧ ∀ x ∈ [(3 : ℚ), 1], x ≤ m) :=
  ⟨rfl, (claim_C7_max_timestamp
    [Json.obj [("ts", Json.num 3)], Json.obj [("ts", Json.num 1)]] [3, 1] rfl).2⟩

/-- C2 counterexample: a record whose timestamp value `"x"` is not
parseable as a number does not make `_get_max_timestamp` fail — the
`ValueError` raised by `float` is caught by the same handler written
for the empty list, and the collection is silently mapped to the `0.0`
floor, contradicting the claim that a malformed record is never mapped
to `0.0`. -/
theorem claim_C2_counterexample :
    _get_max_timestamp [Json.obj [("ts", Json.str "x")]] = .ok 0 := rfl

/-- C2 amended: an absent timestamp key does make `_get_max_timestamp`
fail (the `KeyError` passes through the `except ValueError` handler),
but a present yet unparseable timestamp raises `ValueError`, which that
handler catches, so the whole collection is silently mapped to the
`0.0` floor instead of failing. -/
theorem claim_C2_malformed (msgs : List Json) :
    (tsListOf msgs = .error .keyError → _get_max_timestamp msgs = .error .keyError) ∧
    (tsListOf msgs = .error .valueError → _get_max_timestamp msgs = .ok 0) := by
  constructor
  · intro h
    unfold _get_max_timestamp
    rw [show tsListOf msgs >>= pyMax = Except.error PyErr.keyError by rw [h]; rfl]
  · intro h
    unfold _get_max_timestamp
    rw [show tsListOf msgs >>= pyMax = Except.error PyErr.valueError by rw [h]; rfl]

/-- Witness for the amended C2: a record with no `ts` key propagates
`KeyError`; a record with the unparseable timestamp `"y"` yields the
`0.0` floor. -/
theorem claim_C2_malformed_witness :
    _get_max_timestamp [Json.obj [("k", Json.num 1)]] = .error .keyError ∧
    _get_max_timestamp [Json.obj [("ts", Json.str "y")]] = .ok 0 :=
  ⟨(claim_C2_malformed [Json.obj [("k", Json.num 1)]]).1 rfl,
   (claim_C2_malformed [Json.obj [("ts", Json.str "y")]]).2 rfl⟩

/-- C3: when `_write_json` fails after the temporary file has been
written but before the rename (and likewise during serialization), the
target path's content is exactly what it was before the call; and on
every fault choice a reader of the target path sees either the old
content or the complete new document, never a partial write —
the write path never touches the target path except by the final
atomic rename. -/
theorem claim_C3_write_atomic (fault : Fault) (tmp path : String) (info : Json) (fs : FS)
    (hne : tmp ≠ path) :
    ((fault = .duringDump ∨ fault = .beforeRename) →
      (_write_json fault tmp path info fs).2 path = fs path) ∧
    ((_write_json fault tmp path info fs).2 path = fs path ∨
      (_write_json fault tmp path info fs).2 path = some (.complete info)) := by
  have hpt : path ≠ tmp := Ne.symm hne
  cases fault <;> simp [_write_json, FS.set, hpt]

/-- Witness for C3: fault injected between dump and rename, one-file
filesystem; the target keeps its old content. -/
theorem claim_C3_witness :
    ("t" : String) ≠ "p" ∧
    (((Fault.beforeRename = Fault.duringDump ∨ Fault.beforeRename = Fault.beforeRename) →
        (_write_json Fault.beforeRename "t" "p" Json.null
            (emptyFS.set "p" (some (.complete (Json.num 7))))).2 "p" =
          (emptyFS.set "p" (some (.complete (Json.num 7)))) "p") ∧
      ((_write_json Fault.beforeRename "t" "p" Json.null
            (emptyFS.set "p" (some (.complete (Json.num 7))))).2 "p" =
          (emptyFS.set "p" (some (.complete (Json.num 7)))) "p" ∨
        (_write_json Fault.beforeRename "t" "p" Json.null
            (emptyFS.set "p" (some (.complete (Json.num 7))))).2 "p" =
          some (.complete Json.null))) :=
  ⟨fun h => by exact absurd h (by decide),
   claim_C3_write_atomic Fault.beforeRename "t" "p" Json.null
     (emptyFS.set "p" (some (.complete (Json.num 7)))) (by decide)⟩

/-- C4 counterexample: injecting a failure while serializing into the
temporary file is an exit path of `_write_json` on which the temporary
file is neither renamed onto the target (the target is untouched) nor
removed — it remains on disk half-written, because the file is opened
with `delete=False` and no cleanup runs on the exception path. -/
theorem claim_C4_counterexample :
    (_write_json .duringDump "t2" "p2" Json.null emptyFS).1 = .failed ∧
    (_write_json .duringDump "t2" "p2" Json.null emptyFS).2 "t2" = some .incomplete ∧
    (_write_json .duringDump "t2" "p2" Json.null emptyFS).2 "p2" = none :=
  ⟨rfl, rfl, rfl⟩

/-- C4 amended: only the successful exit path of `_write_json` disposes
of the temporary file (by the rename onto the target); on a failure
during serialization, or after serialization but before the rename, the
temporary file is left behind on disk. -/
theorem claim_C4_temp_file (tmp path : String) (info : Json) (fs : FS)
    (hne : tmp ≠ path) :
    ((_write_json .noFault tmp path info fs).2 tmp = none ∧
      (_write_json .noFault tmp path info fs).2 path = some (.complete info)) ∧
    (_write_json .duringDump tmp path info fs).2 tmp = some .incomplete ∧
    (_write_json .beforeRename tmp path info fs).2 tmp = some (.complete info) := by
  have hpt : path ≠ tmp := Ne.symm hne
  refine ⟨⟨?_, ?_⟩, ?_, ?_⟩ <;> simp [_write_json, FS.set, hne, hpt]

/-- Witness for the amended C4 at a concrete temporary name, target and
document. -/
theorem claim_C4_temp_file_witness :
    ("t3" : String) ≠ "p3" ∧
    (((_write_json .noFault "t3" "p3" (Json.num 5) emptyFS).2 "t3" = none ∧
        (_write_json .noFault "t3" "p3" (Json.num 5) emptyFS).2 "p3" =
          some (.complete (Json.num 5))) ∧
      (_write_json .duringDump "t3" "p3" (Json.num 5) emptyFS).2 "t3" =
        some .incomplete ∧
      (_write_json .beforeRename "t3" "p3" (Json.num 5) emptyFS).2 "t3" =
        some (.complete (Json.num 5))) :=
  ⟨by decide, claim_C4_temp_file "t3" "p3" (Json.num 5) emptyFS (by decide)⟩

/-- C6: round-trip — writing a snapshot whose `messages` field is the
record sequence `msgs` with `_write_json` and then reading it back with
`_get_stored_messages` returns exactly `msgs`, same records in the same
order. -/
theorem claim_C6_round_trip (tmp path : String) (info : Json) (fs : FS)
    (msgs : List Json) (hmsgs : pyGet info "messages" = .ok (.arr msgs)) :
    _get_stored_messages (_write_json .noFault tmp path info fs).2 path = .ok msgs := by
  have hw : (_write_json .noFault tmp path info fs).2 path = some (.complete info) := by
    simp [_write_json, FS.set]
  unfold _get_stored_messages
  rw [hw]
  show pyGet info "messages" >>= asList = .ok msgs
  rw [hmsgs]
  rfl

/-- Witness for C6 at a concrete snapshot with one message. -/
theorem claim_C6_witness :
    pyGet (Json.obj [("channel_info", Json.null),
        ("messages", Json.arr [Json.obj [("ts", Json.num 1)]])]) "messages" =
      .ok (.arr [Json.obj [("ts", Json.num 1)]]) ∧
    _get_stored_messages
        (_write_json .noFault "t4" "p4"
          (Json.obj [("channel_info", Json.null),
            ("messages", Json.arr [Json.obj [("ts", Json.num 1)]])]) emptyFS).2 "p4" =
      .ok [Json.obj [("ts", Json.num 1)]] :=
  ⟨rfl, claim_C6_round_trip "t4" "p4"
    (Json.obj [("channel_info", Json.null),
      ("messages", Json.arr [Json.obj [("ts", Json.num 1)]])]) emptyFS
    [Json.obj [("ts", Json.num 1)]] rfl⟩

/-- C5: when the fetch returns an empty sequence,
`_append_new_messages` is a no-op — the filesystem is returned exactly
as it was (no write occurs, whatever fault would have been injected
into a write) and the result is `unchanged`. -/
theorem claim_C5_empty_fetch_noop (provider : Provider) (fuel : Nat) (fault : Fault)
    (item_id tmp path : String) (info : Json) (fs : FS) (msgs : List Json) (w : ℚ)
    (h1 : _get_stored_messages fs path = .ok msgs)
    (h2 : _get_max_timestamp msgs = .ok w)
    (h3 : (get_history provider item_id fuel w 1000).2 = .ok (some [])) :
    _append_new_messages provider fuel fault item_id tmp path info fs =
      .ok (some (fs, .unchanged)) := by
  simp [_append_new_messages, h1, h2, h3]

/-- Witness for C5: empty store, provider with no messages and no
further pages; the second sync is a no-op returning `unchanged`. -/
theorem claim_C5_witness :
    _get_stored_messages emptyFS "p5" = .ok [] ∧
    _get_max_timestamp [] = .ok 0 ∧
    (get_history (fun _ _ _ _ => ⟨[], false⟩) "c" 1 0 1000).2 = .ok (some []) ∧
    _append_new_messages (fun _ _ _ _ => ⟨[], false⟩) 1 .noFault "c" "t5" "p5"
        Json.null emptyFS = .ok (some (emptyFS, .unchanged)) := by
  have h3 : (get_history (fun _ _ _ _ => ⟨[], false⟩) "c" 1 0 1000).2 = .ok (some []) := by
    simp [get_history, getHistoryGo, keepNew, sortByTs, keyed, Except.map]
  exact ⟨rfl, rfl, h3,
    claim_C5_empty_fetch_noop (fun _ _ _ _ => ⟨[], false⟩) 1 .noFault "c" "t5" "p5"
      Json.null emptyFS [] 0 rfl rfl h3⟩

/-- On a page whose timestamps all parse, the keep-comprehension is the
pure filter by `timestamp strictly greater than the bound`. -/
theorem keepNew_eq_filter (c : ℚ) : ∀ (page : List Json) (qs : List ℚ),
    tsListOf page = .ok qs → keepNew c page = .ok (page.filter (tsGtB c)) := by
  intro page
  induction page with
  | nil => intro qs _; rfl
  | cons m ms ih =>
    intro qs h
    obtain ⟨q, qs', hm, hms, rfl⟩ := tsListOf_cons_ok h
    unfold keepNew
    simp only [hm]
    by_cases hc : c < q
    · rw [if_pos hc, ih qs' hms, List.filter_cons]
      simp [tsGtB, hm, hc, Except.map]
    · rw [if_neg hc, ih qs' hms, List.filter_cons]
      simp [tsGtB, hm, hc]

/-- Inversion for `keyed`: it strips to the original records and every
pair carries its record's parsed timestamp. -/
theorem keyed_spec : ∀ (msgs : List Json) (pairs : List (ℚ × Json)),
    keyed msgs = .ok pairs →
    pairs.map Prod.snd = msgs ∧ ∀ p ∈ pairs, tsOf p.2 = .ok p.1 := by
  intro msgs
  induction msgs with
  | nil =>
    intro pairs h
    simp only [keyed] at h
    obtain rfl : ([] : List (ℚ × Json)) = pairs := by simpa using h
    exact ⟨rfl, by simp⟩
  | cons m ms ih =>
    intro pairs h
    unfold keyed at h
    cases htm : tsOf m with
    | error e => rw [htm] at h; exact absurd h (by simp)
    | ok q =>
      rw [htm] at h
      cases hk : keyed ms with
      | error e => rw [hk] at h; exact absurd h (by simp [Except.map])
      | ok ps =>
        rw [hk] at h
        simp only [Except.map, Except.ok.injEq] at h
        subst h
        obtain ⟨h1, h2⟩ := ih ps hk
        refine ⟨by simp [h1], ?_⟩
        intro p hp
        rcases List.mem_cons.mp hp with rfl | hp
        · exact htm
        · exact h2 p hp

/-- If all timestamps parse then `keyed` succeeds. -/
theorem keyed_of_tsList : ∀ (msgs : List Json) (qs : List ℚ),
    tsListOf msgs = .ok qs → ∃ pairs, keyed msgs = .ok pairs := by
  intro msgs
  induction msgs with
  | nil => intro qs _; exact ⟨[], rfl⟩
  | cons m ms ih =>
    intro qs h
    obtain ⟨q, qs', hm, hms, rfl⟩ := tsListOf_cons_ok h
    obtain ⟨ps, hps⟩ := ih qs' hms
    refine ⟨(q, m) :: ps, ?_⟩
    unfold keyed
    rw [hm, hps]
    rfl

theorem tsLe_trans : ∀ a b c : ℚ × Json, tsLe a b = true → tsLe b c = true →
    tsLe a c = true := by
  intro a b c hab hbc
  simp only [tsLe, decide_eq_true_eq] at *
  exact le_trans hab hbc

theorem tsLe_total : ∀ a b : ℚ × Json, (tsLe a b || tsLe b a) = true := by
  intro a b
  simp only [tsLe, Bool.or_eq_true, decide_eq_true_eq]
  exact le_total a.1 b.1

/-- Behaviour of `sortByTs` on a list whose keys compute: it succeeds,
returns a
permutation of its input, and the result is sorted ascending by
timestamp. -/
theorem sortByTs_spec {msgs : List Json} {pairs : List (ℚ × Json)}
    (h : keyed msgs = .ok pairs) :
    ∃ l, sortByTs msgs = .ok l ∧ l.Perm msgs ∧ SortedByTs l := by
  obtain ⟨hmap, hkeys⟩ := keyed_spec msgs pairs h
  refine ⟨(pairs.mergeSort tsLe).map Prod.snd, ?_, ?_, ?_⟩
  · unfold sortByTs
    rw [h]
    rfl
  · have hperm := List.mergeSort_perm pairs tsLe
    exact hmap ▸ hperm.map Prod.snd
  · have hpw : (pairs.mergeSort tsLe).Pairwise (fun a b => tsLe a b = true) :=
      List.sorted_mergeSort tsLe_trans tsLe_total pairs
    have hmem : ∀ p ∈ pairs.mergeSort tsLe, tsOf p.2 = .ok p.1 := by
      intro p hp
      exact hkeys p ((List.mergeSort_perm pairs tsLe).mem_iff.mp hp)
    have hpw2 : (pairs.mergeSort tsLe).Pairwise
        (fun a b => ∀ qa qb, tsOf a.2 = .ok qa → tsOf b.2 = .ok qb → qa ≤ qb) := by
      refine hpw.imp_of_mem ?_
      intro a b ha hb hab qa qb hqa hqb
      have ha' := hmem a ha
      have hb' := hmem b hb
      rw [ha'] at hqa
      rw [hb'] at hqb
      obtain rfl : a.1 = qa := by injection hqa
      obtain rfl : b.1 = qb := by injection hqb
      simpa [tsLe] using hab
    exact (List.chain'_map Prod.snd).mpr hpw2.chain'

/-- When all timestamps of a page parse, `_get_max_timestamp` always
succeeds (an empty page falls back to the `0.0` floor). -/
theorem get_max_timestamp_ok {page : List Json} {qs : List ℚ}
    (h : tsListOf page = .ok qs) :
    ∃ m, _get_max_timestamp page = .ok m := by
  cases qs with
  | nil =>
    refine ⟨0, ?_⟩
    unfold _get_max_timestamp
    rw [show tsListOf page >>= pyMax = Except.error PyErr.valueError by rw [h]; rfl]
  | cons q qs' => exact ⟨qs'.foldl max q, get_max_timestamp_of_tsList h⟩

/-- Every iteration of the pagination loop passes `int(cursor)` — the
truncation of the current cursor — to the provider as `oldest`: the
first element of the call trace from any loop state is `pyInt` of the
state's cursor. -/
theorem getHistoryGo_trace_head (provider : Provider) (cid : String) (ps fuel : Nat)
    (c : ℚ) (acc : List Json) (k : Nat) :
    (getHistoryGo provider cid ps (fuel + 1) c acc k).1.head? = some (pyInt c) := by
  unfold getHistoryGo
  cases hk : keepNew c (provider k cid (pyInt c) ps).messages with
  | error e => simp [hk]
  | ok kept =>
    cases hb : (provider k cid (pyInt c) ps).has_more with
    | false => simp [hk, hb]
    | true =>
      cases hm : _get_max_timestamp (provider k cid (pyInt c) ps).messages with
      | error e => simp [hk, hb, hm]
      | ok m => simp [hk, hb, hm]

/-- C8: when the provider signals `has_more`, the loop advances the
cursor to the maximum timestamp over the *entire* returned page
(including records the boundary filter excluded), and continues with
exactly that cursor: the run equation exhibits the recursive call at
cursor `m`, where `m` is an attained upper bound of all the page's
timestamps. -/
theorem claim_C8_cursor_advance (provider : Provider) (cid : String) (ps fuel : Nat)
    (c : ℚ) (acc : List Json) (k : Nat) (qs : List ℚ)
    (hmore : (provider k cid (pyInt c) ps).has_more = true)
    (hqs : tsListOf (provider k cid (pyInt c) ps).messages = .ok qs)
    (hne : qs ≠ []) :
    ∃ m, _get_max_timestamp (provider k cid (pyInt c) ps).messages = .ok m ∧
      m ∈ qs ∧ (∀ x ∈ qs, x ≤ m) ∧
      getHistoryGo provider cid ps (fuel + 1) c acc k =
        (pyInt c :: (getHistoryGo provider cid ps fuel m
            (acc ++ (provider k cid (pyInt c) ps).messages.filter (tsGtB c)) (k + 1)).1,
          (getHistoryGo provider cid ps fuel m
            (acc ++ (provider k cid (pyInt c) ps).messages.filter (tsGtB c)) (k + 1)).2) := by
  match qs, hne with
  | q :: qs', _ =>
    have hmax := get_max_timestamp_of_tsList hqs
    have hspec := @pyMax_spec (q :: qs') (qs'.foldl max q) rfl
    refine ⟨qs'.foldl max q, hmax, hspec.1, hspec.2, ?_⟩
    simp only [getHistoryGo]
    rw [keepNew_eq_filter c _ _ hqs]
    simp only [hmore, hmax, if_true]

/-- Witness for C8: a first page with timestamps `2` and `1` (the `1`
excluded by a cursor of `1`), `has_more` set; the next call runs at
cursor `2`, the maximum over the full page. -/
theorem claim_C8_witness :
    ((fun k _ _ _ =>
        if k = 0 then Response.mk [Json.obj [("ts", Json.num 2)],
          Json.obj [("ts", Json.num 1)]] true
        else Response.mk [] false : Provider) 0 "c" (pyInt 1) 1000).has_more = true ∧
    tsListOf ((fun k _ _ _ =>
        if k = 0 then Response.mk [Json.obj [("ts", Json.num 2)],
          Json.obj [("ts", Json.num 1)]] true
        else Response.mk [] false : Provider) 0 "c" (pyInt 1) 1000).messages =
      .ok [2, 1] ∧
    ([2, 1] : List ℚ) ≠ [] ∧
    (∃ m, _get_max_timestamp ((fun k _ _ _ =>
        if k = 0 then Response.mk [Json.obj [("ts", Json.num 2)],
          Json.obj [("ts", Json.num 1)]] true
        else Response.mk [] false : Provider) 0 "c" (pyInt 1) 1000).messages = .ok m ∧
      m ∈ ([2, 1] : List ℚ) ∧ (∀ x ∈ ([2, 1] : List ℚ), x ≤ m) ∧
      getHistoryGo (fun k _ _ _ =>
        if k = 0 then Response.mk [Json.obj [("ts", Json.num 2)],
          Json.obj [("ts", Json.num 1)]] true
        else Response.mk [] false : Provider) "c" 1000 (0 + 1) 1 [] 0 =
        (pyInt 1 :: (getHistoryGo (fun k _ _ _ =>
            if k = 0 then Response.mk [Json.obj [("ts", Json.num 2)],
              Json.obj [("ts", Json.num 1)]] true
            else Response.mk [] false : Provider) "c" 1000 0 m
            ([] ++ ((fun k _ _ _ =>
              if k = 0 then Response.mk [Json.obj [("ts", Json.num 2)],
                Json.obj [("ts", Json.num 1)]] true
              else Response.mk [] false : Provider) 0 "c" (pyInt 1) 1000).messages.filter
              (tsGtB 1)) (0 + 1)).1,
          (getHistoryGo (fun k _ _ _ =>
            if k = 0 then Response.mk [Json.obj [("ts", Json.num 2)],
              Json.obj [("ts", Json.num 1)]] true
            else Response.mk [] false : Provider) "c" 1000 0 m
            ([] ++ ((fun k _ _ _ =>
              if k = 0 then Response.mk [Json.obj [("ts", Json.num 2)],
                Json.obj [("ts", Json.num 1)]] true
              else Response.mk [] false : Provider) 0 "c" (pyInt 1) 1000).messages.filter
              (tsGtB 1)) (0 + 1)).2)) :=
  ⟨rfl, rfl, by simp,
    claim_C8_cursor_advance (fun k _ _ _ =>
      if k = 0 then Response.mk [Json.obj [("ts", Json.num 2)],
        Json.obj [("ts", Json.num 1)]] true
      else Response.mk [] false) "c" 1000 0 1 [] 0 [2, 1] rfl rfl (by simp)⟩

/-- C10 counterexample: at the fractional cursor `-3/2`, `int()`
truncates toward zero to `-1`, and the `oldest` bound actually passed
to the provider is `-1`, which is *not* strictly older (smaller) than
the watermark `-3/2` — refuting "for every fractional cursor value this
requests records strictly older than the watermark". -/
theorem claim_C10_counterexample :
    (getHistoryGo (fun _ _ _ _ => Response.mk [] false) "c" 1000 1 (-(3/2)) [] 0).1 =
      [-1] ∧
    ¬ ((-1 : ℤ) : ℚ) < -(3/2) := by
  constructor
  · have hceil : ⌈(-(3/2) : ℚ)⌉ = -1 := by
      rw [Int.ceil_eq_iff]
      constructor <;> norm_num
    have hpi : pyInt (-(3/2)) = -1 := by
      rw [pyInt, if_pos (by norm_num : (-(3/2) : ℚ) < 0), hceil]
    simp [getHistoryGo, keepNew, sortByTs, keyed, Except.map, hpi]
  · norm_num

/-- C10 amended: on every page request the `oldest` bound passed to the
provider is `pyInt` of the current cursor — Python `int()`, truncation
toward zero — and for every *nonnegative* fractional cursor this bound
is strictly below the cursor, so the request reaches strictly older
records than the watermark and only the local timestamp filter
excludes them. (For a negative fractional cursor, truncation toward
zero rounds up instead, which is the counterexample to the unrestricted
claim.) -/
theorem claim_C10_oldest_truncation (provider : Provider) (cid : String)
    (ps fuel : Nat) (c : ℚ) (acc : List Json) (k : Nat) :
    (getHistoryGo provider cid ps (fuel + 1) c acc k).1.head? = some (pyInt c) ∧
    (0 ≤ c → (¬ ∃ z : ℤ, (z : ℚ) = c) → ((pyInt c : ℤ) : ℚ) < c) := by
  refine ⟨getHistoryGo_trace_head provider cid ps fuel c acc k, ?_⟩
  intro hc hz
  have hpi : pyInt c = ⌊c⌋ := if_neg (not_lt.mpr hc)
  rw [hpi]
  rcases lt_or_eq_of_le (Int.floor_le c) with h | h
  · exact h
  · exact absurd ⟨⌊c⌋, h⟩ hz

/-- Witness for the amended C10 at the concrete fractional cursor
`3/2`: the first request's `oldest` is `pyInt (3/2)` and it is strictly
below the cursor. -/
theorem claim_C10_witness :
    (getHistoryGo (fun _ _ _ _ => Response.mk [] false) "c" 1000 (0 + 1) (3/2)
        [] 0).1.head? = some (pyInt (3/2)) ∧
    ((pyInt (3/2) : ℤ) : ℚ) < 3/2 := by
  have h := claim_C10_oldest_truncation (fun _ _ _ _ => Response.mk [] false) "c"
    1000 0 (3/2) [] 0
  refine ⟨h.1, h.2 (by norm_num) ?_⟩
  rintro ⟨z, hz⟩
  have h2 : (2 * z : ℚ) = 3 := by rw [hz]; norm_num
  have h3 : (2 * z : ℤ) = 3 := by exact_mod_cast h2
  omega

/-- One unfolding of the loop when the provider's page is kept as
`kept` and `has_more` is set: the loop recurses at cursor `m`. -/
theorem go_step_true {provider : Provider} {cid : String} {ps fuel : Nat} {c : ℚ}
    {acc : List Json} {k : Nat} {page kept : List Json} {m : ℚ}
    (hpage : provider k cid (pyInt c) ps = Response.mk page true)
    (hkept : keepNew c page = .ok kept)
    (hmax : _get_max_timestamp page = .ok m) :
    getHistoryGo provider cid ps (fuel + 1) c acc k =
      (pyInt c :: (getHistoryGo provider cid ps fuel m (acc ++ kept) (k + 1)).1,
        (getHistoryGo provider cid ps fuel m (acc ++ kept) (k + 1)).2) := by
  simp only [getHistoryGo, hpage, hkept, hmax, if_true]

/-- One unfolding of the loop when the provider's page is kept as
`kept` and `has_more` is clear: the loop stops and sorts. -/
theorem go_step_false {provider : Provider} {cid : String} {ps fuel : Nat} {c : ℚ}
    {acc : List Json} {k : Nat} {page kept : List Json}
    (hpage : provider k cid (pyInt c) ps = Response.mk page false)
    (hkept : keepNew c page = .ok kept) :
    getHistoryGo provider cid ps (fuel + 1) c acc k =
      ([pyInt c], (sortByTs (acc ++ kept)).map some) := by
  simp only [getHistoryGo, hpage, hkept]
  simp

theorem tsListOf_tsRange : ∀ (n : Nat) (a : ℚ),
    tsListOf (tsRange a n) = .ok (ratRange a n) := by
  intro n
  induction n with
  | zero => intro a; rfl
  | succ n ih =>
    intro a
    simp only [tsRange, ratRange, tsListOf, ih (a + 1)]
    rfl

theorem length_tsRange : ∀ (n : Nat) (a : ℚ), (tsRange a n).length = n := by
  intro n
  induction n with
  | zero => intro a; rfl
  | succ n ih => intro a; simp [tsRange, ih (a + 1)]

theorem tsRange_append : ∀ (n m : Nat) (a : ℚ),
    tsRange a n ++ tsRange (a + n) m = tsRange a (n + m) := by
  intro n
  induction n with
  | zero => intro m a; simp [tsRange]
  | succ n ih =>
    intro m a
    have h2 : n + 1 + m = (n + m) + 1 := by omega
    rw [h2]
    simp only [tsRange, List.cons_append]
    congr 1
    rw [show (a + ((n + 1 : Nat) : ℚ)) = (a + 1) + (n : ℚ) by push_cast; ring]
    exact ih m (a + 1)

theorem keepNew_tsRange : ∀ (n : Nat) (a c : ℚ), c < a →
    keepNew c (tsRange a n) = .ok (tsRange a n) := by
  intro n
  induction n with
  | zero => intro a c _; rfl
  | succ n ih =>
    intro a c h
    simp only [tsRange, keepNew]
    rw [show tsOf (Json.obj [("ts", Json.num a)]) = Except.ok a from rfl]
    simp only [if_pos h, ih (a + 1) c (lt_trans h (lt_add_one a)), Except.map]

theorem ratRange_foldl : ∀ (n : Nat) (a x : ℚ), x < a →
    (ratRange a (n + 1)).foldl max x = a + n := by
  intro n
  induction n with
  | zero =>
    intro a x h
    show max x a = a + ((0 : Nat) : ℚ)
    rw [max_eq_right h.le]
    norm_num
  | succ n ih =>
    intro a x h
    show (ratRange (a + 1) (n + 1)).foldl max (max x a) = a + ((n + 1 : Nat) : ℚ)
    rw [max_eq_right h.le, ih (a + 1) a (lt_add_one a)]
    push_cast
    ring

theorem get_max_tsRange : ∀ (n : Nat) (a : ℚ),
    _get_max_timestamp (tsRange a (n + 1)) = .ok (a + n) := by
  intro n a
  have hts : tsListOf (tsRange a (n + 1)) = .ok (a :: ratRange (a + 1) n) := by
    rw [tsListOf_tsRange]
    rfl
  rw [get_max_timestamp_of_tsList hts]
  congr 1
  cases n with
  | zero =>
    show List.foldl max a (ratRange (a + 1) 0) = a + ((0 : Nat) : ℚ)
    simp [ratRange]
  | succ n' =>
    show List.foldl max a (ratRange (a + 1) (n' + 1)) = a + ((n' + 1 : Nat) : ℚ)
    rw [ratRange_foldl n' (a + 1) a (lt_add_one a)]
    push_cast
    ring

/-- The full run of the loop against `provider3`: three provider calls
(the trace records their `oldest` bounds), and the sorted concatenation
of the three kept pages. -/
theorem run3 (p0 p1 p2 : List Json) (c0 m0 m1 : ℚ) (k0 k1 k2 : List Json)
    (hk0 : keepNew c0 p0 = .ok k0) (hm0 : _get_max_timestamp p0 = .ok m0)
    (hk1 : keepNew m0 p1 = .ok k1) (hm1 : _get_max_timestamp p1 = .ok m1)
    (hk2 : keepNew m1 p2 = .ok k2) (j : Nat) :
    getHistoryGo (provider3 p0 p1 p2) "c" 1000 (j + 3) c0 [] 0 =
      ([pyInt c0, pyInt m0, pyInt m1],
        (sortByTs ((([] ++ k0) ++ k1) ++ k2)).map some) := by
  have hp0 : provider3 p0 p1 p2 0 "c" (pyInt c0) 1000 = Response.mk p0 true := rfl
  have hp1 : provider3 p0 p1 p2 1 "c" (pyInt m0) 1000 = Response.mk p1 true := rfl
  have hp2 : provider3 p0 p1 p2 2 "c" (pyInt m1) 1000 = Response.mk p2 false := rfl
  have s0 : getHistoryGo (provider3 p0 p1 p2) "c" 1000 (j + 3) c0 [] 0 =
      (pyInt c0 ::
        (getHistoryGo (provider3 p0 p1 p2) "c" 1000 (j + 2) m0 ([] ++ k0) 1).1,
        (getHistoryGo (provider3 p0 p1 p2) "c" 1000 (j + 2) m0 ([] ++ k0) 1).2) :=
    go_step_true hp0 hk0 hm0
  have s1 : getHistoryGo (provider3 p0 p1 p2) "c" 1000 (j + 2) m0 ([] ++ k0) 1 =
      (pyInt m0 ::
        (getHistoryGo (provider3 p0 p1 p2) "c" 1000 (j + 1) m1
          (([] ++ k0) ++ k1) 2).1,
        (getHistoryGo (provider3 p0 p1 p2) "c" 1000 (j + 1) m1
          (([] ++ k0) ++ k1) 2).2) :=
    go_step_true hp1 hk1 hm1
  have s2 : getHistoryGo (provider3 p0 p1 p2) "c" 1000 (j + 1) m1
      (([] ++ k0) ++ k1) 2 =
      ([pyInt m1], (sortByTs ((([] ++ k0) ++ k1) ++ k2)).map some) :=
    go_step_false hp2 hk2
  rw [s0, s1, s2]

/-- C9: with `since = 0`, against a provider returning pages of 1000,
1000 and 400 records with `has_more = true, true, false`, `get_history`
terminates after exactly three provider calls (the call trace has
length 3) and returns exactly 2400 records, sorted ascending by
timestamp. -/
theorem claim_C9_pagination (fuel : Nat) (hfuel : 3 ≤ fuel) :
    ∃ msgs, (get_history providerC9 "c" fuel 0 1000).1.length = 3 ∧
      (get_history providerC9 "c" fuel 0 1000).2 = .ok (some msgs) ∧
      msgs.length = 2400 ∧ SortedByTs msgs := by
  obtain ⟨j, rfl⟩ := Nat.exists_eq_add_of_le' hfuel
  have hk0 : keepNew 0 (tsRange 1 1000) = .ok (tsRange 1 1000) :=
    keepNew_tsRange 1000 1 0 (by norm_num)
  have hk1 : keepNew 1000 (tsRange 1001 1000) = .ok (tsRange 1001 1000) :=
    keepNew_tsRange 1000 1001 1000 (by norm_num)
  have hk2 : keepNew 2000 (tsRange 2001 400) = .ok (tsRange 2001 400) :=
    keepNew_tsRange 400 2001 2000 (by norm_num)
  have hm0 : _get_max_timestamp (tsRange 1 1000) = .ok 1000 := by
    have h := get_max_tsRange 999 1
    norm_num at h
    exact h
  have hm1 : _get_max_timestamp (tsRange 1001 1000) = .ok 2000 := by
    have h := get_max_tsRange 999 1001
    norm_num at h
    exact h
  have hrun : getHistoryGo providerC9 "c" 1000 (j + 3) 0 [] 0 =
      ([pyInt 0, pyInt 1000, pyInt 2000],
        (sortByTs ((([] ++ tsRange 1 1000) ++ tsRange 1001 1000) ++
          tsRange 2001 400)).map some) :=
    run3 (tsRange 1 1000) (tsRange 1001 1000) (tsRange 2001 400) 0 1000 2000
      (tsRange 1 1000) (tsRange 1001 1000) (tsRange 2001 400)
      hk0 hm0 hk1 hm1 hk2 j
  have e1 : tsRange 1 1000 ++ tsRange 1001 1000 = tsRange 1 2000 := by
    have h := tsRange_append 1000 1000 1
    norm_num at h
    exact h
  have e2 : tsRange 1 2000 ++ tsRange 2001 400 = tsRange 1 2400 := by
    have h := tsRange_append 2000 400 1
    norm_num at h
    exact h
  obtain ⟨pairs, hpairs⟩ := keyed_of_tsList _ _ (tsListOf_tsRange 2400 1)
  obtain ⟨l, hsort, hperm, hsorted⟩ := sortByTs_spec hpairs
  rw [List.nil_append, e1, e2, hsort] at hrun
  refine ⟨l, ?_, ?_, ?_, hsorted⟩
  · show (getHistoryGo providerC9 "c" 1000 (j + 3) 0 [] 0).1.length = 3
    exact (congrArg (fun p => p.1.length) hrun).trans rfl
  · show (getHistoryGo providerC9 "c" 1000 (j + 3) 0 [] 0).2 = .ok (some l)
    exact (congrArg Prod.snd hrun).trans rfl
  · exact hperm.length_eq.trans (length_tsRange 2400 1)

/-- Witness for C9: exactly three pages at the minimal sufficient
fuel. -/
theorem claim_C9_witness :
    3 ≤ 3 ∧ ∃ msgs, (get_history providerC9 "c" 3 0 1000).1.length = 3 ∧
      (get_history providerC9 "c" 3 0 1000).2 = .ok (some msgs) ∧
      msgs.length = 2400 ∧ SortedByTs msgs :=
  ⟨by decide, claim_C9_pagination 3 (by decide)⟩

/-- C1 counterexample: a merge cycle with exclusive bound `since = 0`
against `providerC1`. The record with timestamp `3` on the second page
strictly exceeds the original bound `0`, so under the claim it would be
kept; the code filters the second page against the advanced cursor `5`
and drops it — the result contains only the timestamp-5 record. -/
theorem claim_C1_counterexample :
    (get_history providerC1 "c" 2 0 1000).2 =
      .ok (some [Json.obj [("ts", Json.num 5)]]) ∧
    tsOf (Json.obj [("ts", Json.num 3)]) = .ok 3 ∧
    (0 : ℚ) < 3 ∧
    Json.obj [("ts", Json.num 3)] ∉ [Json.obj [("ts", Json.num 5)]] := by
  have hp0 : providerC1 0 "c" (pyInt 0) 1000 =
      Response.mk [Json.obj [("ts", Json.num 5)]] true := rfl
  have hp1 : providerC1 1 "c" (pyInt 5) 1000 =
      Response.mk [Json.obj [("ts", Json.num 3)]] false := rfl
  have hk0 : keepNew 0 [Json.obj [("ts", Json.num 5)]] =
      .ok [Json.obj [("ts", Json.num 5)]] := rfl
  have hm0 : _get_max_timestamp [Json.obj [("ts", Json.num 5)]] = .ok 5 := rfl
  have hk1 : keepNew 5 [Json.obj [("ts", Json.num 3)]] = .ok [] := rfl
  have s0 : getHistoryGo providerC1 "c" 1000 2 0 [] 0 =
      (pyInt 0 :: (getHistoryGo providerC1 "c" 1000 1 5
          ([] ++ [Json.obj [("ts", Json.num 5)]]) 1).1,
        (getHistoryGo providerC1 "c" 1000 1 5
          ([] ++ [Json.obj [("ts", Json.num 5)]]) 1).2) :=
    go_step_true hp0 hk0 hm0
  have s1 : getHistoryGo providerC1 "c" 1000 1 5
      ([] ++ [Json.obj [("ts", Json.num 5)]]) 1 =
      ([pyInt 5], (sortByTs (([] ++ [Json.obj [("ts", Json.num 5)]]) ++ [])).map some) :=
    go_step_false hp1 hk1
  have hbind : ∀ (f : Json → Except PyErr ℚ), (Except.ok (Json.num 5) >>= f) =
      f (Json.num 5) := fun _ => rfl
  have hs : sortByTs (([] ++ [Json.obj [("ts", Json.num 5)]]) ++ []) =
      .ok [Json.obj [("ts", Json.num 5)]] := by
    simp [sortByTs, keyed, tsOf, pyGet, lookupField, pyFloat, Except.map, hbind]
  refine ⟨?_, rfl, by norm_num, ?_⟩
  · show (getHistoryGo providerC1 "c" 1000 2 0 [] 0).2 =
      .ok (some [Json.obj [("ts", Json.num 5)]])
    rw [s0]
    simp only [s1]
    show (sortByTs (([] ++ [Json.obj [("ts", Json.num 5)]]) ++ [])).map some =
      .ok (some [Json.obj [("ts", Json.num 5)]])
    rw [hs]
    rfl
  · intro hmem
    have h := List.mem_singleton.mp hmem
    have h2 := congrArg tsOf h
    have h3 : (3 : ℚ) = 5 := by
      injection (h2 : Except.ok (3 : ℚ) = Except.ok 5)
    exact absurd h3 (by decide)

/-- A successful `sortByTs` returns a permutation of its input. -/
theorem sortByTs_perm {msgs l : List Json} (h : sortByTs msgs = .ok l) :
    l.Perm msgs := by
  cases hkd : keyed msgs with
  | error e =>
    rw [sortByTs, hkd] at h
    exact absurd h (by simp [Except.map])
  | ok pairs =>
    obtain ⟨l', hs', hp', _⟩ := sortByTs_spec hkd
    rw [h] at hs'
    obtain rfl : l = l' := by injection hs'
    exact hp'

/-- C1 amended: on every successful run of the pagination loop, the
result is (a sorted permutation of) the accumulator plus, for each
page, exactly the records of that page whose timestamp strictly
exceeds *that page's own cursor* — the cursor being the original
exclusive bound only for the first page and, for every later page, the
maximum timestamp of the previous returned page. The original bound is
not used as the filter after the first page. -/
theorem claim_C1_cursor_filter (provider : Provider) (cid : String) (ps : Nat)
    (hparse : ∀ k old, ∃ qs, tsListOf (provider k cid old ps).messages = .ok qs) :
    ∀ (fuel : Nat) (c : ℚ) (acc : List Json) (k : Nat) (res : List Json),
      (getHistoryGo provider cid ps fuel c acc k).2 = .ok (some res) →
      ∃ steps : List (Nat × ℚ),
        steps.head? = some (k, c) ∧
        steps.Chain' (fun s t => t.1 = s.1 + 1 ∧
          _get_max_timestamp (provider s.1 cid (pyInt s.2) ps).messages = .ok t.2) ∧
        res.Perm (acc ++ (steps.map (fun s =>
          (provider s.1 cid (pyInt s.2) ps).messages.filter (tsGtB s.2))).flatten) := by
  intro fuel
  induction fuel with
  | zero =>
    intro c acc k res h
    exact absurd h (by simp [getHistoryGo])
  | succ fuel ih =>
    intro c acc k res h
    obtain ⟨qs, hqs⟩ := hparse k (pyInt c)
    have hkeep := keepNew_eq_filter c _ _ hqs
    cases hb : (provider k cid (pyInt c) ps).has_more with
    | false =>
      have hpage : provider k cid (pyInt c) ps =
          Response.mk (provider k cid (pyInt c) ps).messages false := by rw [← hb]
      have hstep := @go_step_false provider cid ps fuel c acc k
        (provider k cid (pyInt c) ps).messages
        (List.filter (tsGtB c) (provider k cid (pyInt c) ps).messages) hpage hkeep
      rw [hstep] at h
      have hsv : sortByTs (acc ++ (provider k cid (pyInt c) ps).messages.filter
          (tsGtB c)) = .ok res := by
        cases hsv : sortByTs (acc ++ (provider k cid (pyInt c) ps).messages.filter
            (tsGtB c)) with
        | error e =>
          rw [show ([pyInt c], (sortByTs (acc ++ (provider k cid (pyInt c)
            ps).messages.filter (tsGtB c))).map some).2 = (sortByTs (acc ++
            (provider k cid (pyInt c) ps).messages.filter (tsGtB c))).map some
            from rfl, hsv] at h
          exact absurd h (by simp [Except.map])
        | ok l =>
          rw [show ([pyInt c], (sortByTs (acc ++ (provider k cid (pyInt c)
            ps).messages.filter (tsGtB c))).map some).2 = (sortByTs (acc ++
            (provider k cid (pyInt c) ps).messages.filter (tsGtB c))).map some
            from rfl, hsv] at h
          simp only [Except.map, Except.ok.injEq] at h
          obtain rfl : l = res := by simpa using h
          rfl
      refine ⟨[(k, c)], rfl, List.chain'_singleton _, ?_⟩
      simp only [List.map_cons, List.map_nil, List.flatten_cons, List.flatten_nil,
        List.append_nil]
      exact sortByTs_perm hsv
    | true =>
      obtain ⟨m, hm⟩ := get_max_timestamp_ok hqs
      have hpage : provider k cid (pyInt c) ps =
          Response.mk (provider k cid (pyInt c) ps).messages true := by rw [← hb]
      have hstep := @go_step_true provider cid ps fuel c acc k
        (provider k cid (pyInt c) ps).messages
        (List.filter (tsGtB c) (provider k cid (pyInt c) ps).messages) m hpage hkeep hm
      rw [hstep] at h
      obtain ⟨steps', hhead', hchain', hperm'⟩ :=
        ih m (acc ++ (provider k cid (pyInt c) ps).messages.filter (tsGtB c))
          (k + 1) res h
      refine ⟨(k, c) :: steps', rfl, ?_, ?_⟩
      · rw [List.chain'_cons']
        refine ⟨?_, hchain'⟩
        intro y hy
        rw [hhead'] at hy
        obtain rfl : (k + 1, m) = y := by simpa using hy
        exact ⟨rfl, hm⟩
      · refine hperm'.trans ?_
        rw [List.map_cons, List.flatten_cons, ← List.append_assoc]

/-- Witness for the amended C1 against the trivial empty provider. -/
theorem claim_C1_cursor_filter_witness :
    (∀ k old, ∃ qs, tsListOf (((fun _ _ _ _ => Response.mk [] false) : Provider)
      k "c" old 1000).messages = .ok qs) ∧
    ((getHistoryGo (fun _ _ _ _ => Response.mk [] false) "c" 1000 1 0 [] 0).2 =
      .ok (some [])) ∧
    ∃ steps : List (Nat × ℚ),
      steps.head? = some (0, 0) ∧
      steps.Chain' (fun s t => t.1 = s.1 + 1 ∧
        _get_max_timestamp (((fun _ _ _ _ => Response.mk [] false) : Provider)
          s.1 "c" (pyInt s.2) 1000).messages = .ok t.2) ∧
      ([] : List Json).Perm ([] ++ (steps.map (fun s =>
        (((fun _ _ _ _ => Response.mk [] false) : Provider) s.1 "c" (pyInt s.2)
          1000).messages.filter (tsGtB s.2))).flatten) := by
  have hrun : (getHistoryGo ((fun _ _ _ _ => Response.mk [] false) : Provider)
      "c" 1000 1 0 [] 0).2 = .ok (some []) := by
    simp [getHistoryGo, keepNew, sortByTs, keyed, Except.map]
  exact ⟨fun k old => ⟨[], rfl⟩, hrun,
    claim_C1_cursor_filter (fun _ _ _ _ => Response.mk [] false) "c" 1000
      (fun k old => ⟨[], rfl⟩) 1 0 [] 0 [] hrun⟩
